import Mathlib

/-!
# Verification of the multipart upload proxy (`src/api.js`)

This file gives a shallow embedding of the hand-rolled multipart/form-data
parser and request handler of `src/api.js`, and proves the specified
properties about it.

Modelling conventions:
* A Node.js `Buffer` is a `List Nat` of byte values.
* A JavaScript string is a `List Char`.
* `Buffer.indexOf(pat, from)` is `bufIndexOf` (`none` stands for `-1`).
* `Buffer.slice(a, b)` (with `0 ≤ a, b`) is `sliceB`; one-argument
  `Buffer.slice(a)` is `List.drop a`.
* The regex `/boundary=(.*)$/` (no `m` flag) is `getBoundary`: it matches at
  the first position of the literal `boundary=` whose suffix-to-end contains
  no line terminator (`.` does not match `\n`, `\r`, U+2028, U+2029, and `$`
  anchors at end of input), capturing that suffix.
* The regex `/filename="(.+?)"/` runs on the UTF-8 decoding of the header
  bytes.  It is embedded byte-for-byte by `fileMatch`: the literal
  `filename="` is ASCII so it corresponds exactly to the bytes
  `fnPat`; a `"` byte (0x22) is always a character boundary of the decoding
  (it can never be a continuation byte), and the decoded characters excluded
  by `.` correspond exactly to the byte 0x0A, the byte 0x0D, and the byte
  sequences E2 80 A8 / E2 80 A9 (U+2028/U+2029).  The lazy `(.+?)` takes the
  shortest non-empty run up to a closing quote, and on failure the engine
  retries the literal at the next position.
* `res.status(s).json({error: m})` is `HandlerResult.response s m`; reaching
  the downstream `fetch` with the extracted file is
  `HandlerResult.forward filename payload`.
* A thrown-and-caught exception (the `catch` block) is
  `HandlerResult.response 500 "Proxy failed"`; in particular an absent
  `Content-Type` header makes `getBoundary(undefined)` throw a `TypeError`,
  which the `catch` turns into that 500 response.
-/

/-- Byte values of an ASCII string. -/
def asciiB (s : String) : List Nat := s.data.map Char.toNat

/-- The header/body separator bytes `\r\n\r\n`. -/
def crlf2crlf : List Nat := [13, 10, 13, 10]

/-- The byte pattern of the literal regex fragment `filename="`. -/
def fnPat : List Nat := asciiB "filename=\""

/-- Boolean "is a list-prefix of" test, used to detect a pattern occurrence
at the head of a suffix. -/
def isPref {α : Type} [DecidableEq α] : List α → List α → Bool
  | [], _ => true
  | _ :: _, [] => false
  | a :: as, b :: bs => if a = b then isPref as bs else false

/-- Scan a suffix `l` (whose first element sits at absolute index `i`) for
the first occurrence of `pat`; embeds the search of `Buffer.indexOf`. -/
def occAux {α : Type} [DecidableEq α] (pat : List α) : List α → Nat → Option Nat
  | [], i => if isPref pat [] then some i else none
  | b :: l, i => if isPref pat (b :: l) then some i else occAux pat l (i + 1)

/-- `Buffer.indexOf(pat, s)`: index of the first occurrence of `pat` in
`body` at or after `s`, or `none` (the JS `-1`). -/
def bufIndexOf (body pat : List Nat) (s : Nat) : Option Nat :=
  occAux pat (body.drop s) s

/-- `Buffer.slice(a, b)` for non-negative indices: the bytes of indices
`[a, b)`, clamped to the buffer, empty when `a ≥ b`. -/
def sliceB (l : List Nat) (a b : Nat) : List Nat := (l.take b).drop a

/-- Characters that the JavaScript regex metacharacter `.` does not match
(line terminators). -/
def isLineTermC (c : Char) : Bool :=
  c == Char.ofNat 10 || c == Char.ofNat 13 || c == Char.ofNat 8232 || c == Char.ofNat 8233

/-- Scan of `contentType.match(/boundary=(.*)$/)`: at each position, if the
literal `boundary=` occurs there and the rest of the string has no line
terminator, the capture is that rest; otherwise the engine moves one
character right. -/
def getBoundaryAux : List Char → Option (List Char)
  | [] => none
  | c :: rest =>
    if isPref "boundary=".data (c :: rest) then
      if (List.drop 9 (c :: rest)).all (fun d => !(isLineTermC d)) then
        some (List.drop 9 (c :: rest))
      else getBoundaryAux rest
    else getBoundaryAux rest

/-- `getBoundary` of `src/api.js` (lines 10–13): capture group of
`contentType.match(/boundary=(.*)$/)`, or `none` for a `null` match. -/
def getBoundary (ct : List Char) : Option (List Char) := getBoundaryAux ct

/-- UTF-8 bytes of one character. -/
def utf8Char (c : Char) : List Nat :=
  let n := c.toNat
  if n < 128 then [n]
  else if n < 2048 then [192 + n / 64, 128 + n % 64]
  else if n < 65536 then [224 + n / 4096, 128 + n / 64 % 64, 128 + n % 64]
  else [240 + n / 262144, 128 + n / 4096 % 64, 128 + n / 64 % 64, 128 + n % 64]

/-- UTF-8 bytes of a string (`Buffer.from(str)`). -/
def utf8Encode (s : List Char) : List Nat := (s.map utf8Char).flatten

/-- True when a line-terminator character of the UTF-8 decoding starts at
the head of this byte suffix: byte 0x0A or 0x0D, or the three-byte
sequences of U+2028 / U+2029. -/
def ltStart : List Nat → Bool
  | 10 :: _ => true
  | 13 :: _ => true
  | 226 :: 128 :: 168 :: _ => true
  | 226 :: 128 :: 169 :: _ => true
  | _ => false

/-- The lazy group `(.+?)` followed by `"`: consume the shortest non-empty
run of non-line-terminator characters up to a closing quote byte.  `acc`
holds the consumed bytes in reverse. -/
def captureAux : List Nat → List Nat → Option (List Nat)
  | _, [] => none
  | acc, b :: rest =>
    if b = 34 ∧ acc ≠ [] then some acc.reverse
    else if ltStart (b :: rest) then none
    else captureAux (b :: acc) rest

/-- `header.match(/filename="(.+?)"/)`: the capture group of the first
match, scanning the header bytes left to right (see the file comment for
why the byte-level scan agrees with the regex on the UTF-8 decoding). -/
def fileMatch : List Nat → Option (List Nat)
  | [] => none
  | b :: rest =>
    if isPref fnPat (b :: rest) then
      match captureAux [] (List.drop fnPat.length (b :: rest)) with
      | some cap => some cap
      | none => fileMatch rest
    else fileMatch rest

/-- One iteration step of the part-splitting `while` loop of `src/api.js`
(lines 43–50), with explicit fuel (the loop advances `start` by at least
two per iteration, so `body.length` fuel is never exhausted). -/
def splitLoopF (body boundary : List Nat) : Nat → Nat → List (List Nat)
  | 0, _ => []
  | fuel + 1, start =>
    match bufIndexOf body (45 :: 45 :: boundary) (start + (45 :: 45 :: boundary).length) with
    | none => []
    | some next =>
      sliceB body (start + (45 :: 45 :: boundary).length + 2) (next - 2) ::
        splitLoopF body boundary fuel next

/-- The `parts` array computed by the splitter loop: `boundary` is the byte
encoding of the boundary token, and the marker searched for is
`"--" + boundary`. -/
def splitParts (body boundary : List Nat) : List (List Nat) :=
  match bufIndexOf body (45 :: 45 :: boundary) 0 with
  | none => []
  | some start => splitLoopF body boundary body.length start

/-- The sequence of boundary-marker start indices visited by the splitter
loop (the last visited index terminates the loop without emitting a part). -/
def occLoopF (body boundary : List Nat) : Nat → Nat → List Nat
  | 0, start => [start]
  | fuel + 1, start =>
    match bufIndexOf body (45 :: 45 :: boundary) (start + (45 :: 45 :: boundary).length) with
    | none => [start]
    | some next => start :: occLoopF body boundary fuel next

/-- All boundary-marker start indices visited by the splitter loop. -/
def occSeq (body boundary : List Nat) : List Nat :=
  match bufIndexOf body (45 :: 45 :: boundary) 0 with
  | none => []
  | some start => occLoopF body boundary body.length start

/-- The body of the part-scanning `for` loop of `src/api.js` (lines 55–67)
for a single part: `none` when the part has no `\r\n\r\n` separator or its
header has no `filename="..."` match (the loop continues), otherwise the
captured filename and the bytes after the separator. -/
def tryPart (part : List Nat) : Option (List Nat × List Nat) :=
  match bufIndexOf part crlf2crlf 0 with
  | none => none
  | some headerEnd =>
    match fileMatch (sliceB part 0 headerEnd) with
    | none => none
    | some fn => some (fn, part.drop (headerEnd + 4))

/-- The part-scanning loop: first part that yields a filename match wins
(`break`), later parts are never inspected. -/
def findFile : List (List Nat) → Option (List Nat × List Nat)
  | [] => none
  | p :: rest =>
    match tryPart p with
    | some r => some r
    | none => findFile rest

/-- An inbound HTTP request as the handler sees it: the method, the
`content-type` header (absent headers are `none`), and the fully buffered
body bytes. -/
structure Request where
  method : String
  contentType : Option (List Char)
  body : List Nat

/-- Observable outcome of the handler up to the downstream call: either an
error/JSON response `res.status(s).json({error: m})` produced locally, or
the hand-off of the extracted file to the outbound `fetch`. -/
inductive HandlerResult where
  | response (status : Nat) (error : String)
  | forward (filename : List Nat) (payload : List Nat)
  deriving DecidableEq

/-- The request handler of `src/api.js` (default export), up to the
downstream call.  `processorUrl` is `process.env.PROCESSOR_URL` (`none` or
`some ""` are both falsy).  An absent `Content-Type` header makes
`getBoundary(undefined)` throw; the `catch` block answers
500 `Proxy failed`.  A `null` or empty boundary capture is falsy and
answers 400 `Invalid multipart/form-data`. -/
def handler (processorUrl : Option String) (req : Request) : HandlerResult :=
  if req.method ≠ "POST" then .response 405 "Only POST supported"
  else if processorUrl = none ∨ processorUrl = some "" then
    .response 500 "PROCESSOR_URL env variable missing"
  else
    match req.contentType with
    | none => .response 500 "Proxy failed"
    | some ct =>
      match getBoundary ct with
      | none => .response 400 "Invalid multipart/form-data"
      | some bchars =>
        if bchars.isEmpty then .response 400 "Invalid multipart/form-data"
        else
          match findFile (splitParts req.body (utf8Encode bchars)) with
          | none => .response 400 "No file found in request"
          | some (fn, buf) => .forward fn buf

/-! ### Concrete test vectors used by witnesses -/

/-- The file-part header the specification's round-trip property names. -/
def hdrC1 : List Nat :=
  asciiB "Content-Disposition: form-data; name=\"file\"; filename=\"report.pdf\""

/-- The boundary marker bytes `--XYZ123` of the round-trip scenario. -/
def bBufC1 : List Nat := asciiB "--XYZ123"

/-- Everything before the payload in the round-trip body: opening boundary,
CRLF, the part header, and the header/body separator. -/
def preC1 : List Nat := bBufC1 ++ [13, 10] ++ hdrC1 ++ [13, 10, 13, 10]

/-- Everything after the payload in the round-trip body: CRLF and the
closing boundary `--XYZ123--`. -/
def sufC1 : List Nat := [13, 10] ++ bBufC1 ++ [45, 45]

/-- A well-formed one-file multipart body with payload `P`. -/
def bodyC1 (P : List Nat) : List Nat := preC1 ++ P ++ sufC1

/-- A POST request carrying `bodyC1 P` with boundary `XYZ123`. -/
def reqC1 (P : List Nat) : Request :=
  ⟨"POST", some ("multipart/form-data; boundary=XYZ123".data), bodyC1 P⟩

/-- A part with no filename attribute. -/
def partA : List Nat :=
  asciiB "Content-Disposition: form-data; name=\"x\"" ++ crlf2crlf ++ asciiB "AAA"

/-- A part declaring filename `b.pdf` with payload `BBB`. -/
def partB : List Nat :=
  asciiB "Content-Disposition: form-data; name=\"b\"; filename=\"b.pdf\"" ++ crlf2crlf ++ asciiB "BBB"

/-- A part declaring filename `c.pdf` with payload `CCC`. -/
def partC : List Nat :=
  asciiB "Content-Disposition: form-data; name=\"c\"; filename=\"c.pdf\"" ++ crlf2crlf ++ asciiB "CCC"

/-- A POST request whose single part has no filename attribute. -/
def reqC6 : Request :=
  ⟨"POST", some ("multipart/form-data; boundary=Q".data),
    asciiB "--Q\r\nContent-Disposition: form-data; name=\"x\"\r\n\r\nv\r\n--Q--"⟩

/-- The single part of `reqC6`'s body as the splitter extracts it. -/
def partC6 : List Nat :=
  asciiB "Content-Disposition: form-data; name=\"x\"" ++ crlf2crlf ++ asciiB "v"

/-- The single part of `reqC10`'s body as the splitter extracts it: the
header/body separator is the final content, so the payload is empty. -/
def partC10 : List Nat :=
  asciiB "Content-Disposition: form-data; name=\"f\"; filename=\"a.pdf\"" ++ crlf2crlf

/-- A POST request whose single file part has an empty payload (the
header/body separator is the last content of the part). -/
def reqC10 : Request :=
  ⟨"POST", some ("multipart/form-data; boundary=Q".data),
    asciiB "--Q\r\nContent-Disposition: form-data; name=\"f\"; filename=\"a.pdf\"\r\n\r\n\r\n--Q--"⟩

/-- A POST request whose single file part carries payload `AB`. -/
def reqC8 : Request :=
  ⟨"POST", some ("multipart/form-data; boundary=Q".data),
    asciiB "--Q\r\nContent-Disposition: form-data; name=\"f\"; filename=\"a.pdf\"\r\n\r\nAB\r\n--Q--"⟩

example : getBoundary "multipart/form-data; boundary=XYZ123".data = some "XYZ123".data := by decide

example : getBoundary "text/plain".data = none := by decide

example : fileMatch (asciiB "Content-Disposition: form-data; name=\"file\"; filename=\"report.pdf\"") =
    some (asciiB "report.pdf") := by decide

example : splitParts (asciiB "--Q\r\nABCD\r\n--Q--") (asciiB "Q") = [asciiB "ABCD"] := by decide

/-! ### Basic facts about `isPref`, `occAux`, `bufIndexOf` -/

theorem isPref_iff {α : Type} [DecidableEq α] :
    ∀ (p l : List α), isPref p l = true ↔ ∃ t, l = p ++ t := by
  intro p
  induction p with
  | nil =>
    intro l
    simp [isPref]
  | cons a as ih =>
    intro l
    cases l with
    | nil =>
      constructor
      · intro h
        exact absurd h (by simp [isPref])
      · rintro ⟨t, ht⟩
        exact absurd ht (by simp)
    | cons b bs =>
      constructor
      · intro h
        have hcond : a = b := by
          by_contra hab
          rw [show isPref (a :: as) (b :: bs) = if a = b then isPref as bs else false from rfl,
            if_neg hab] at h
          exact Bool.false_ne_true h
        subst hcond
        rw [show isPref (a :: as) (a :: bs) = if a = a then isPref as bs else false from rfl,
          if_pos rfl] at h
        obtain ⟨t, rfl⟩ := (ih bs).mp h
        exact ⟨t, rfl⟩
      · rintro ⟨t, ht⟩
        rw [List.cons_append] at ht
        rw [ht]
        rw [show isPref (a :: as) (a :: (as ++ t)) = if a = a then isPref as (as ++ t) else false
          from rfl, if_pos rfl]
        exact (ih (as ++ t)).mpr ⟨t, rfl⟩

theorem isPref_length {α : Type} [DecidableEq α] {p l : List α} (h : isPref p l = true) :
    p.length ≤ l.length := by
  obtain ⟨t, rfl⟩ := (isPref_iff p l).mp h
  simp

theorem isPref_getElem {α : Type} [DecidableEq α] {p l : List α} (h : isPref p l = true)
    {i : Nat} (hi : i < p.length) : l[i]? = p[i]? := by
  obtain ⟨t, rfl⟩ := (isPref_iff p l).mp h
  exact List.getElem?_append_left hi

theorem isPref_nil_of_ne {α : Type} [DecidableEq α] {p : List α} (h : p ≠ []) :
    isPref p ([] : List α) = false := by
  cases p with
  | nil => exact absurd rfl h
  | cons a as => rfl

theorem occAux_some_iff {α : Type} [DecidableEq α] (pat : List α) :
    ∀ (l : List α) (i j : Nat),
      occAux pat l i = some j ↔
        ∃ d, j = i + d ∧ isPref pat (l.drop d) = true ∧
          ∀ e, e < d → isPref pat (l.drop e) = false := by
  intro l
  induction l with
  | nil =>
    intro i j
    by_cases h : isPref pat ([] : List α) = true
    · rw [show occAux pat ([] : List α) i = if isPref pat [] then some i else none from rfl,
        if_pos h]
      constructor
      · intro hj
        have := Option.some.inj hj
        subst this
        exact ⟨0, by omega, by simpa using h,
          fun e he => absurd he (Nat.not_lt_zero e)⟩
      · rintro ⟨d, rfl, -, hmin⟩
        rcases Nat.eq_zero_or_pos d with rfl | hd
        · simp
        · have := hmin 0 hd
          simp only [List.drop_nil] at this
          exact absurd h (by simp [this])
    · rw [show occAux pat ([] : List α) i = if isPref pat [] then some i else none from rfl,
        if_neg h]
      constructor
      · intro hc
        cases hc
      · rintro ⟨d, rfl, hocc, -⟩
        simp only [List.drop_nil] at hocc
        exact absurd hocc h
  | cons b t ih =>
    intro i j
    by_cases h : isPref pat (b :: t) = true
    · rw [show occAux pat (b :: t) i
          = if isPref pat (b :: t) then some i else occAux pat t (i + 1) from rfl, if_pos h]
      constructor
      · intro hj
        have := Option.some.inj hj
        subst this
        exact ⟨0, by omega, by simpa using h,
          fun e he => absurd he (Nat.not_lt_zero e)⟩
      · rintro ⟨d, rfl, -, hmin⟩
        rcases Nat.eq_zero_or_pos d with rfl | hd
        · simp
        · have := hmin 0 hd
          simp only [List.drop_zero] at this
          exact absurd h (by simp [this])
    · rw [show occAux pat (b :: t) i
          = if isPref pat (b :: t) then some i else occAux pat t (i + 1) from rfl, if_neg h]
      rw [ih (i + 1) j]
      constructor
      · rintro ⟨d, rfl, hocc, hmin⟩
        refine ⟨d + 1, by omega, by simpa using hocc, ?_⟩
        intro e he
        cases e with
        | zero =>
          simp only [List.drop_zero]
          exact Bool.eq_false_iff.mpr h
        | succ e' =>
          have := hmin e' (by omega)
          simpa using this
      · rintro ⟨d, hj, hocc, hmin⟩
        cases d with
        | zero =>
          simp only [List.drop_zero] at hocc
          exact absurd hocc h
        | succ d' =>
          refine ⟨d', by omega, by simpa using hocc, ?_⟩
          intro e he
          have := hmin (e + 1) (by omega)
          simpa using this

theorem occAux_none_iff {α : Type} [DecidableEq α] (pat : List α) :
    ∀ (l : List α) (i : Nat),
      occAux pat l i = none ↔ ∀ d, isPref pat (l.drop d) = false := by
  intro l
  induction l with
  | nil =>
    intro i
    by_cases h : isPref pat ([] : List α) = true
    · rw [show occAux pat ([] : List α) i = if isPref pat [] then some i else none from rfl,
        if_pos h]
      constructor
      · intro hc
        cases hc
      · intro hall
        have := hall 0
        simp only [List.drop_nil] at this
        exact absurd h (by simp [this])
    · rw [show occAux pat ([] : List α) i = if isPref pat [] then some i else none from rfl,
        if_neg h]
      constructor
      · intro _ d
        simp only [List.drop_nil]
        exact Bool.eq_false_iff.mpr h
      · intro _
        rfl
  | cons b t ih =>
    intro i
    by_cases h : isPref pat (b :: t) = true
    · rw [show occAux pat (b :: t) i
          = if isPref pat (b :: t) then some i else occAux pat t (i + 1) from rfl, if_pos h]
      constructor
      · intro hc
        cases hc
      · intro hall
        have := hall 0
        simp only [List.drop_zero] at this
        exact absurd h (by simp [this])
    · rw [show occAux pat (b :: t) i
          = if isPref pat (b :: t) then some i else occAux pat t (i + 1) from rfl, if_neg h]
      rw [ih (i + 1)]
      constructor
      · intro hall d
        cases d with
        | zero =>
          simp only [List.drop_zero]
          exact Bool.eq_false_iff.mpr h
        | succ d' =>
          have := hall d'
          simpa using this
      · intro hall d
        have := hall (d + 1)
        simpa using this

theorem bufIndexOf_some_iff {body pat : List Nat} {s j : Nat} :
    bufIndexOf body pat s = some j ↔
      s ≤ j ∧ isPref pat (body.drop j) = true ∧
        ∀ k, s ≤ k → k < j → isPref pat (body.drop k) = false := by
  unfold bufIndexOf
  rw [occAux_some_iff]
  constructor
  · rintro ⟨d, rfl, hocc, hmin⟩
    rw [List.drop_drop] at hocc
    refine ⟨by omega, hocc, ?_⟩
    intro k hk1 hk2
    have h := hmin (k - s) (by omega)
    rw [List.drop_drop, show s + (k - s) = k by omega] at h
    exact h
  · rintro ⟨hs, hocc, hmin⟩
    refine ⟨j - s, by omega, ?_, ?_⟩
    · rw [List.drop_drop, show s + (j - s) = j by omega]
      exact hocc
    · intro e he
      rw [List.drop_drop]
      exact hmin (s + e) (by omega) (by omega)

theorem bufIndexOf_none_iff {body pat : List Nat} {s : Nat} :
    bufIndexOf body pat s = none ↔ ∀ k, s ≤ k → isPref pat (body.drop k) = false := by
  unfold bufIndexOf
  rw [occAux_none_iff]
  constructor
  · intro hall k hk
    have h := hall (k - s)
    rw [List.drop_drop, show s + (k - s) = k by omega] at h
    exact h
  · intro hall d
    rw [List.drop_drop]
    exact hall (s + d) (by omega)

theorem occ_fits {pat body : List Nat} {j : Nat} (hp : pat ≠ [])
    (h : isPref pat (body.drop j) = true) : j + pat.length ≤ body.length := by
  have hlen := isPref_length h
  rw [List.length_drop] at hlen
  by_cases hj : j ≤ body.length
  · omega
  · rw [List.drop_eq_nil_of_le (by omega)] at h
    rw [isPref_nil_of_ne hp] at h
    exact absurd h (by simp)

theorem occ_byte {pat body : List Nat} {k : Nat} (h : isPref pat (body.drop k) = true)
    {i : Nat} (hi : i < pat.length) : body[k + i]? = pat[i]? := by
  have hg := isPref_getElem h hi
  rwa [List.getElem?_drop] at hg

theorem no_occ_of_crlf_byte {pat body : List Nat} {q k : Nat}
    (hq : body[q]? = some 10 ∨ body[q]? = some 13)
    (hk1 : k ≤ q) (hk2 : q < k + pat.length)
    (hpat : ∀ m, m < pat.length → pat[m]? ≠ some 10 ∧ pat[m]? ≠ some 13) :
    isPref pat (body.drop k) = false := by
  cases hb : isPref pat (body.drop k) with
  | false => rfl
  | true =>
    exfalso
    have hbyte := occ_byte hb (show q - k < pat.length by omega)
    rw [show k + (q - k) = q by omega] at hbyte
    rcases hq with h10 | h13
    · exact (hpat (q - k) (by omega)).1 (by rw [← hbyte, h10])
    · exact (hpat (q - k) (by omega)).2 (by rw [← hbyte, h13])

theorem all_getElem {l : List Nat} {p : Nat → Bool} (h : l.all p = true)
    {i : Nat} {x : Nat} (hx : l[i]? = some x) : p x = true :=
  (List.all_eq_true.mp h) x (List.getElem?_mem hx)

/-! ### Structure of the splitter loop -/

theorem occLoopF_cons (body bd : List Nat) :
    ∀ (f s : Nat), ∃ t, occLoopF body bd f s = s :: t := by
  intro f s
  cases f with
  | zero => exact ⟨[], rfl⟩
  | succ f' =>
    cases h : bufIndexOf body (45 :: 45 :: bd) (s + (45 :: 45 :: bd).length) with
    | none => exact ⟨[], by simp only [occLoopF, h]⟩
    | some n => exact ⟨occLoopF body bd f' n, by simp only [occLoopF, h]⟩

theorem splitLoopF_eq_zip (body bd : List Nat) :
    ∀ (f s : Nat),
      splitLoopF body bd f s =
        ((occLoopF body bd f s).zip (occLoopF body bd f s).tail).map
          (fun pr => sliceB body (pr.1 + (45 :: 45 :: bd).length + 2) (pr.2 - 2)) := by
  intro f
  induction f with
  | zero =>
    intro s
    simp [splitLoopF, occLoopF]
  | succ f' ih =>
    intro s
    cases h : bufIndexOf body (45 :: 45 :: bd) (s + (45 :: 45 :: bd).length) with
    | none =>
      simp only [splitLoopF, occLoopF, h, List.tail_cons, List.zip_nil_right, List.map_nil]
    | some n =>
      obtain ⟨t, ht⟩ := occLoopF_cons body bd f' n
      simp only [splitLoopF, occLoopF, h]
      rw [ht, ih n, ht]
      simp [List.zip]

theorem splitParts_eq_zip (body bd : List Nat) :
    splitParts body bd =
      ((occSeq body bd).zip (occSeq body bd).tail).map
        (fun pr => sliceB body (pr.1 + (45 :: 45 :: bd).length + 2) (pr.2 - 2)) := by
  unfold splitParts occSeq
  cases h : bufIndexOf body (45 :: 45 :: bd) 0 with
  | none => simp
  | some s => exact splitLoopF_eq_zip body bd body.length s

theorem occLoopF_mem (body bd : List Nat) :
    ∀ (f s : Nat), isPref (45 :: 45 :: bd) (body.drop s) = true →
      ∀ o ∈ occLoopF body bd f s, isPref (45 :: 45 :: bd) (body.drop o) = true := by
  intro f
  induction f with
  | zero =>
    intro s hs o ho
    simp only [occLoopF, List.mem_singleton] at ho
    subst ho
    exact hs
  | succ f' ih =>
    intro s hs o ho
    cases h : bufIndexOf body (45 :: 45 :: bd) (s + (45 :: 45 :: bd).length) with
    | none =>
      simp only [occLoopF, h, List.mem_singleton] at ho
      subst ho
      exact hs
    | some n =>
      simp only [occLoopF, h, List.mem_cons] at ho
      rcases ho with rfl | ho
      · exact hs
      · exact ih n (bufIndexOf_some_iff.mp h).2.1 o ho

theorem occLoopF_chain (body bd : List Nat) :
    ∀ (f s : Nat),
      List.Chain'
        (fun a b => a + (45 :: 45 :: bd).length ≤ b ∧
          ∀ k, a + (45 :: 45 :: bd).length ≤ k → k < b →
            isPref (45 :: 45 :: bd) (body.drop k) = false)
        (occLoopF body bd f s) := by
  intro f
  induction f with
  | zero =>
    intro s
    simp [occLoopF]
  | succ f' ih =>
    intro s
    cases h : bufIndexOf body (45 :: 45 :: bd) (s + (45 :: 45 :: bd).length) with
    | none => simp only [occLoopF, h, List.chain'_singleton]
    | some n =>
      obtain ⟨t, ht⟩ := occLoopF_cons body bd f' n
      simp only [occLoopF, h, ht]
      rw [List.chain'_cons]
      obtain ⟨hle, -, hmin⟩ := bufIndexOf_some_iff.mp h
      refine ⟨⟨hle, fun k hk1 hk2 => hmin k hk1 hk2⟩, ?_⟩
      rw [← ht]
      exact ih n

theorem splitLoopF_mem_slice (body bd : List Nat) :
    ∀ (f s : Nat), ∀ p ∈ splitLoopF body bd f s, ∃ a b, p = sliceB body a b := by
  intro f
  induction f with
  | zero =>
    intro s p hp
    simp [splitLoopF] at hp
  | succ f' ih =>
    intro s p hp
    cases h : bufIndexOf body (45 :: 45 :: bd) (s + (45 :: 45 :: bd).length) with
    | none =>
      rw [show splitLoopF body bd (f' + 1) s
          = match bufIndexOf body (45 :: 45 :: bd) (s + (45 :: 45 :: bd).length) with
            | none => []
            | some next =>
              sliceB body (s + (45 :: 45 :: bd).length + 2) (next - 2) ::
                splitLoopF body bd f' next from rfl, h] at hp
      simp at hp
    | some n =>
      rw [show splitLoopF body bd (f' + 1) s
          = match bufIndexOf body (45 :: 45 :: bd) (s + (45 :: 45 :: bd).length) with
            | none => []
            | some next =>
              sliceB body (s + (45 :: 45 :: bd).length + 2) (next - 2) ::
                splitLoopF body bd f' next from rfl, h] at hp
      obtain he | hp' := List.mem_cons.mp hp
      · exact ⟨s + (45 :: 45 :: bd).length + 2, n - 2, he⟩
      · exact ih n p hp'

theorem sliceB_split (l : List Nat) (a b : Nat) :
    l = (l.take b).take a ++ sliceB l a b ++ l.drop b := by
  unfold sliceB
  rw [List.take_append_drop a (l.take b), List.take_append_drop b l]

/-! ### Unfolding helpers -/

theorem isPref_append_eq {α : Type} [DecidableEq α] :
    ∀ (pat x m : List α), pat.length ≤ x.length →
      isPref pat (x ++ m) = isPref pat x := by
  intro pat
  induction pat with
  | nil =>
    intro x m _
    rfl
  | cons a as ih =>
    intro x m hlen
    cases x with
    | nil => simp at hlen
    | cons b bs =>
      rw [List.cons_append]
      rw [show isPref (a :: as) (b :: (bs ++ m)) = if a = b then isPref as (bs ++ m) else false
        from rfl]
      rw [show isPref (a :: as) (b :: bs) = if a = b then isPref as bs else false from rfl]
      by_cases hab : a = b
      · rw [if_pos hab, if_pos hab]
        exact ih bs m (by simpa using hlen)
      · rw [if_neg hab, if_neg hab]

theorem no_occ_head_byte {pat body : List Nat} {k b0 : Nat}
    (hpat0 : pat[0]? = some b0) (hne : body[k]? ≠ some b0) :
    isPref pat (body.drop k) = false := by
  cases hb : isPref pat (body.drop k) with
  | false => rfl
  | true =>
    exfalso
    have hlen : 0 < pat.length := by
      cases pat with
      | nil => simp at hpat0
      | cons c cs => simp
    have h0 := occ_byte hb hlen
    rw [Nat.add_zero, hpat0] at h0
    exact hne h0

theorem no_occ_two_bytes {pat body : List Nat} {k b0 b1 : Nat}
    (hpat0 : pat[0]? = some b0) (hpat1 : pat[1]? = some b1)
    (hne : body[k]? ≠ some b0 ∨ body[k + 1]? ≠ some b1) :
    isPref pat (body.drop k) = false := by
  cases hb : isPref pat (body.drop k) with
  | false => rfl
  | true =>
    exfalso
    have hlen1 : 1 < pat.length := by
      cases pat with
      | nil => simp at hpat0
      | cons c cs =>
        cases cs with
        | nil => simp at hpat1
        | cons d ds => simp
    rcases hne with hne0 | hne1
    · have h0 := occ_byte hb (show 0 < pat.length by omega)
      rw [Nat.add_zero, hpat0] at h0
      exact hne0 h0
    · have h1 := occ_byte hb hlen1
      rw [hpat1] at h1
      exact hne1 h1

theorem splitLoopF_stop {body bd : List Nat} {s : Nat} (f : Nat)
    (h : bufIndexOf body (45 :: 45 :: bd) (s + (45 :: 45 :: bd).length) = none) :
    splitLoopF body bd f s = [] := by
  cases f with
  | zero => rfl
  | succ f' =>
    rw [show splitLoopF body bd (f' + 1) s
        = match bufIndexOf body (45 :: 45 :: bd) (s + (45 :: 45 :: bd).length) with
          | none => []
          | some next =>
            sliceB body (s + (45 :: 45 :: bd).length + 2) (next - 2) ::
              splitLoopF body bd f' next from rfl, h]

theorem splitLoopF_step {body bd : List Nat} {s n : Nat} (f : Nat)
    (h : bufIndexOf body (45 :: 45 :: bd) (s + (45 :: 45 :: bd).length) = some n) :
    splitLoopF body bd (f + 1) s =
      sliceB body (s + (45 :: 45 :: bd).length + 2) (n - 2) :: splitLoopF body bd f n := by
  rw [show splitLoopF body bd (f + 1) s
      = match bufIndexOf body (45 :: 45 :: bd) (s + (45 :: 45 :: bd).length) with
        | none => []
        | some next =>
          sliceB body (s + (45 :: 45 :: bd).length + 2) (next - 2) ::
            splitLoopF body bd f next from rfl, h]

theorem splitParts_none {body bd : List Nat}
    (h : bufIndexOf body (45 :: 45 :: bd) 0 = none) : splitParts body bd = [] := by
  unfold splitParts
  rw [h]

theorem splitParts_start {body bd : List Nat} {s : Nat}
    (h : bufIndexOf body (45 :: 45 :: bd) 0 = some s) :
    splitParts body bd = splitLoopF body bd body.length s := by
  unfold splitParts
  rw [h]

theorem tryPart_none_of_no_sep {p : List Nat} (h : bufIndexOf p crlf2crlf 0 = none) :
    tryPart p = none := by
  unfold tryPart
  rw [h]

theorem tryPart_none_of_no_match {p : List Nat} {he : Nat}
    (h1 : bufIndexOf p crlf2crlf 0 = some he) (h2 : fileMatch (sliceB p 0 he) = none) :
    tryPart p = none := by
  unfold tryPart
  rw [h1]
  show (match fileMatch (sliceB p 0 he) with
        | none => none
        | some fn => some (fn, List.drop (he + 4) p)) = none
  rw [h2]

theorem tryPart_some_of_match {p : List Nat} {he : Nat} {fn : List Nat}
    (h1 : bufIndexOf p crlf2crlf 0 = some he) (h2 : fileMatch (sliceB p 0 he) = some fn) :
    tryPart p = some (fn, p.drop (he + 4)) := by
  unfold tryPart
  rw [h1]
  show (match fileMatch (sliceB p 0 he) with
        | none => none
        | some fn => some (fn, List.drop (he + 4) p)) = some (fn, p.drop (he + 4))
  rw [h2]

theorem tryPart_some_inv {p : List Nat} {fn buf : List Nat} (h : tryPart p = some (fn, buf)) :
    ∃ he, bufIndexOf p crlf2crlf 0 = some he ∧
      fileMatch (sliceB p 0 he) = some fn ∧ buf = p.drop (he + 4) := by
  unfold tryPart at h
  cases h1 : bufIndexOf p crlf2crlf 0 with
  | none =>
    rw [h1] at h
    cases h
  | some he =>
    rw [h1] at h
    have h' : (match fileMatch (sliceB p 0 he) with
        | none => none
        | some fn => some (fn, List.drop (he + 4) p)) = some (fn, buf) := h
    cases h2 : fileMatch (sliceB p 0 he) with
    | none =>
      rw [h2] at h'
      cases h'
    | some fn' =>
      rw [h2] at h'
      injection h' with h3
      injection h3 with h4 h5
      subst h4
      exact ⟨he, rfl, h2, h5.symm⟩

theorem findFile_cons_none {p : List Nat} (rest : List (List Nat)) (h : tryPart p = none) :
    findFile (p :: rest) = findFile rest := by
  show (match tryPart p with
        | some r => some r
        | none => findFile rest) = findFile rest
  rw [h]

theorem findFile_cons_some {p : List Nat} {r : List Nat × List Nat} (rest : List (List Nat))
    (h : tryPart p = some r) : findFile (p :: rest) = some r := by
  show (match tryPart p with
        | some r => some r
        | none => findFile rest) = some r
  rw [h]

theorem findFile_append_none {pre : List (List Nat)} (h : ∀ q ∈ pre, tryPart q = none)
    (l : List (List Nat)) : findFile (pre ++ l) = findFile l := by
  induction pre with
  | nil => rfl
  | cons q qs ih =>
    rw [List.cons_append, findFile_cons_none _ (h q (by simp))]
    exact ih (fun q' hq' => h q' (by simp [hq']))

theorem findFile_none_of_all {parts : List (List Nat)}
    (h : ∀ p ∈ parts, tryPart p = none) : findFile parts = none := by
  have := findFile_append_none h ([] : List (List Nat))
  simpa using this

theorem findFile_some_mem {parts : List (List Nat)} {r : List Nat × List Nat}
    (h : findFile parts = some r) : ∃ p ∈ parts, tryPart p = some r := by
  induction parts with
  | nil => cases h
  | cons p rest ih =>
    have h' : (match tryPart p with
        | some r => some r
        | none => findFile rest) = some r := h
    cases ht : tryPart p with
    | none =>
      rw [ht] at h'
      obtain ⟨q, hq, hq2⟩ := ih h'
      exact ⟨q, by simp [hq], hq2⟩
    | some r' =>
      rw [ht] at h'
      injection h' with h2
      subst h2
      exact ⟨p, by simp, ht⟩

/-! ### Reduction of the handler along each control path -/

theorem handler_not_post {purl : Option String} {req : Request} (h : req.method ≠ "POST") :
    handler purl req = .response 405 "Only POST supported" := by
  unfold handler
  rw [if_pos h]

theorem handler_ct_absent {purl : String} {req : Request} (hp : purl ≠ "")
    (hm : req.method = "POST") (hct : req.contentType = none) :
    handler (some purl) req = .response 500 "Proxy failed" := by
  simp [handler, hm, hct, hp]

theorem handler_no_boundary {purl : String} {req : Request} {ct : List Char} (hp : purl ≠ "")
    (hm : req.method = "POST") (hct : req.contentType = some ct)
    (hgb : getBoundary ct = none) :
    handler (some purl) req = .response 400 "Invalid multipart/form-data" := by
  simp [handler, hm, hct, hp, hgb]

theorem handler_empty_boundary {purl : String} {req : Request} {ct : List Char} (hp : purl ≠ "")
    (hm : req.method = "POST") (hct : req.contentType = some ct)
    (hgb : getBoundary ct = some []) :
    handler (some purl) req = .response 400 "Invalid multipart/form-data" := by
  simp [handler, hm, hct, hp, hgb]

theorem handler_no_file {purl : String} {req : Request} {ct : List Char} {bchars : List Char}
    (hp : purl ≠ "") (hm : req.method = "POST") (hct : req.contentType = some ct)
    (hgb : getBoundary ct = some bchars) (hne : bchars ≠ [])
    (hff : findFile (splitParts req.body (utf8Encode bchars)) = none) :
    handler (some purl) req = .response 400 "No file found in request" := by
  have hie : bchars.isEmpty = false := by
    cases bchars with
    | nil => exact absurd rfl hne
    | cons c cs => rfl
  simp [handler, hm, hct, hp, hgb, hie, hff]

theorem handler_forward {purl : String} {req : Request} {ct : List Char} {bchars : List Char}
    {fn buf : List Nat}
    (hp : purl ≠ "") (hm : req.method = "POST") (hct : req.contentType = some ct)
    (hgb : getBoundary ct = some bchars) (hne : bchars ≠ [])
    (hff : findFile (splitParts req.body (utf8Encode bchars)) = some (fn, buf)) :
    handler (some purl) req = .forward fn buf := by
  have hie : bchars.isEmpty = false := by
    cases bchars with
    | nil => exact absurd rfl hne
    | cons c cs => rfl
  simp [handler, hm, hct, hp, hgb, hie, hff]

/-! ### Behaviour of the boundary resolver -/

theorem getBoundaryAux_cons (c : Char) (rest : List Char) :
    getBoundaryAux (c :: rest) =
      if isPref "boundary=".data (c :: rest) then
        (if (List.drop 9 (c :: rest)).all (fun d => !(isLineTermC d)) then
          some (List.drop 9 (c :: rest))
        else getBoundaryAux rest)
      else getBoundaryAux rest := rfl

theorem getBoundaryAux_no_occ :
    ∀ ct : List Char, (∀ i, isPref "boundary=".data (ct.drop i) = false) →
      getBoundaryAux ct = none := by
  intro ct
  induction ct with
  | nil =>
    intro _
    rfl
  | cons c rest ih =>
    intro h
    rw [getBoundaryAux_cons, if_neg]
    · exact ih (fun i => by simpa using h (i + 1))
    · have h0 := h 0
      simp only [List.drop_zero] at h0
      simp [h0]

theorem getBoundaryAux_found :
    ∀ (pre suf : List Char),
      ((pre ++ "boundary=".data ++ suf).all (fun d => !(isLineTermC d)) = true) →
      (∀ j, j < pre.length →
        isPref "boundary=".data ((pre ++ "boundary=".data ++ suf).drop j) = false) →
      getBoundaryAux (pre ++ "boundary=".data ++ suf) = some suf := by
  intro pre
  induction pre with
  | nil =>
    intro suf hall _
    simp only [List.nil_append] at hall ⊢
    have hcons : "boundary=".data ++ suf = 'b' :: ("oundary=".data ++ suf) := rfl
    rw [hcons, getBoundaryAux_cons, ← hcons]
    rw [show List.drop 9 ("boundary=".data ++ suf) = suf from
      List.drop_left' (by decide)]
    rw [if_pos ((isPref_iff _ _).mpr ⟨suf, rfl⟩), if_pos]
    rw [List.all_append] at hall
    exact (Bool.and_eq_true _ _).mp hall |>.2
  | cons c pre' ih =>
    intro suf hall hmin
    rw [List.cons_append, List.cons_append]
    have hcons : ∀ l : List Char, (c :: l) = [c] ++ l := fun l => rfl
    rw [getBoundaryAux_cons, if_neg]
    · refine ih suf ?_ ?_
      · rw [List.cons_append, List.cons_append] at hall
        simp only [List.all_cons, Bool.and_eq_true] at hall
        exact hall.2
      · intro j hj
        have := hmin (j + 1) (by simpa using Nat.succ_lt_succ hj)
        rw [List.cons_append, List.cons_append] at this
        simpa using this
    · have h0 := hmin 0 (by simp)
      simp only [List.drop_zero, List.cons_append] at h0
      simpa using h0

theorem handler_bad_url {purl : Option String} {req : Request} (hm : req.method = "POST")
    (h : purl = none ∨ purl = some "") :
    handler purl req = .response 500 "PROCESSOR_URL env variable missing" := by
  rcases h with rfl | rfl <;> simp [handler, hm]

theorem occSeq_none {body bd : List Nat}
    (h : bufIndexOf body (45 :: 45 :: bd) 0 = none) : occSeq body bd = [] := by
  unfold occSeq
  rw [h]

theorem occSeq_start {body bd : List Nat} {s : Nat}
    (h : bufIndexOf body (45 :: 45 :: bd) 0 = some s) :
    occSeq body bd = occLoopF body bd body.length s := by
  unfold occSeq
  rw [h]

/-! ### The claims -/

/-- C4: for every `Content-Type` header value (header field values contain
no line-terminator characters, stated as the `all` hypothesis), the boundary
resolver returns exactly the substring following the first occurrence of
`boundary=` through the end of the string, verbatim — no unquoting and no
stopping at a later semicolon — and returns `none` (the JS `null`) when no
`boundary=` occurs. -/
theorem c4_boundary_resolver (ct : List Char)
    (hall : ct.all (fun d => !(isLineTermC d)) = true) :
    ((∀ i, isPref "boundary=".data (ct.drop i) = false) → getBoundary ct = none) ∧
    (∀ pre suf, ct = pre ++ "boundary=".data ++ suf →
      (∀ j, j < pre.length → isPref "boundary=".data (ct.drop j) = false) →
      getBoundary ct = some suf) := by
  constructor
  · intro h
    exact getBoundaryAux_no_occ ct h
  · rintro pre suf rfl hmin
    exact getBoundaryAux_found pre suf hall hmin

/-- C4 witness: the resolver maps `multipart/form-data; boundary=XYZ123`
to `XYZ123`. -/
theorem c4_boundary_resolver_witness :
    getBoundary "multipart/form-data; boundary=XYZ123".data = some "XYZ123".data :=
  (c4_boundary_resolver "multipart/form-data; boundary=XYZ123".data (by decide)).2
    "multipart/form-data; ".data "XYZ123".data (by decide) (by decide)

/-- C5 counterexample: a POST request with `PROCESSOR_URL` set whose
`Content-Type` header is entirely absent is answered with
500 `Proxy failed` (the `TypeError` thrown by `getBoundary(undefined)` is
caught by the top-level `catch`), not with the claimed
400 `Invalid multipart/form-data`. -/
theorem c5_counterexample :
    handler (some "http://proc") ⟨"POST", none, []⟩ = .response 500 "Proxy failed" ∧
    handler (some "http://proc") ⟨"POST", none, []⟩ ≠
      .response 400 "Invalid multipart/form-data" := by
  constructor
  · exact handler_ct_absent (by decide) rfl rfl
  · decide

/-- C5 (amended): for every POST request with `PROCESSOR_URL` set, a
present `Content-Type` header that yields no boundary (no regex match, or
an empty — falsy — capture) is answered with HTTP 400
`Invalid multipart/form-data`, while an entirely absent `Content-Type`
header makes `getBoundary(undefined)` throw and the handler answers
HTTP 500 `Proxy failed`. -/
theorem c5_invalid_multipart (purl : String) (req : Request) (hp : purl ≠ "")
    (hm : req.method = "POST") :
    (req.contentType = none → handler (some purl) req = .response 500 "Proxy failed") ∧
    (∀ ct, req.contentType = some ct →
      (getBoundary ct = none ∨ getBoundary ct = some []) →
      handler (some purl) req = .response 400 "Invalid multipart/form-data") := by
  constructor
  · intro hct
    exact handler_ct_absent hp hm hct
  · rintro ct hct (hgb | hgb)
    · exact handler_no_boundary hp hm hct hgb
    · exact handler_empty_boundary hp hm hct hgb

/-- C5 witness: a POST request whose `Content-Type` has no `boundary=`
token is answered 400. -/
theorem c5_invalid_multipart_witness :
    handler (some "http://proc") ⟨"POST", some "text/plain".data, []⟩ =
      .response 400 "Invalid multipart/form-data" :=
  (c5_invalid_multipart "http://proc" ⟨"POST", some "text/plain".data, []⟩
    (by decide) rfl).2 "text/plain".data rfl (Or.inl (by decide))

/-- C7: a part with no `\r\n\r\n` separator yields nothing (`continue`) and
the scan over the remaining parts is unchanged; such a part is never the
selected file and never aborts the request (the scan is a total
function). -/
theorem c7_no_separator_skipped (p : List Nat) (h : bufIndexOf p crlf2crlf 0 = none) :
    tryPart p = none ∧ ∀ rest, findFile (p :: rest) = findFile rest := by
  refine ⟨tryPart_none_of_no_sep h, fun rest => findFile_cons_none rest ?_⟩
  exact tryPart_none_of_no_sep h

/-- C7 witness: a separator-free part is skipped and scanning continues
with the following part. -/
theorem c7_no_separator_skipped_witness :
    tryPart (asciiB "no separator here") = none ∧
    findFile [asciiB "no separator here", partB] = findFile [partB] := by
  have h := c7_no_separator_skipped (asciiB "no separator here") (by decide)
  exact ⟨h.1, h.2 [partB]⟩

/-- C3: the file selector returns the captured filename and the bytes
after the header/body separator of the first part whose header block
matches `filename="..."`, regardless of the parts after it (the scan
short-circuits); and on three concrete parts of which only the second and
third declare filenames it returns the second part's filename and
payload, never the third's. -/
theorem c3_first_match_wins :
    (∀ (pre suf : List (List Nat)) (p : List Nat) (he : Nat) (fn : List Nat),
      (∀ q ∈ pre, tryPart q = none) →
      bufIndexOf p crlf2crlf 0 = some he →
      fileMatch (sliceB p 0 he) = some fn →
      findFile (pre ++ p :: suf) = some (fn, p.drop (he + 4))) ∧
    findFile [partA, partB, partC] = some (asciiB "b.pdf", asciiB "BBB") := by
  constructor
  · intro pre suf p he fn hpre h1 h2
    rw [findFile_append_none hpre]
    exact findFile_cons_some suf (tryPart_some_of_match h1 h2)
  · decide

/-- C3 witness: with a filename-free first part, the scan returns the
second part's capture and payload whatever follows. -/
theorem c3_first_match_wins_witness :
    findFile ([partA] ++ partB :: [partC]) = some (asciiB "b.pdf", partB.drop (58 + 4)) :=
  c3_first_match_wins.1 [partA] [partC] partB 58 (asciiB "b.pdf")
    (by decide) (by decide) (by decide)

/-- C2: the splitter emits exactly the byte slices between consecutive
boundary-marker occurrences as the scan visits them: `occSeq` lists genuine
occurrences of `--boundary`, its head is the overall first occurrence, each
subsequent entry is the first occurrence at or after the previous entry
plus the marker length (the scan resumes after the matched marker), each
part starts 2 bytes after the end of an occurrence and ends 2 bytes before
the start of the next, the final occurrence yields no part of its own
(there is one part fewer than visited occurrences), and with fewer than
two occurrences in the whole body the part list is empty. -/
theorem c2_part_splitter (body bd : List Nat) :
    splitParts body bd =
      ((occSeq body bd).zip (occSeq body bd).tail).map
        (fun pr => sliceB body (pr.1 + (45 :: 45 :: bd).length + 2) (pr.2 - 2)) ∧
    (∀ o ∈ occSeq body bd, isPref (45 :: 45 :: bd) (body.drop o) = true) ∧
    (∀ h ∈ (occSeq body bd).head?, ∀ k, isPref (45 :: 45 :: bd) (body.drop k) = true → h ≤ k) ∧
    List.Chain'
      (fun a b => a + (45 :: 45 :: bd).length ≤ b ∧
        ∀ k, a + (45 :: 45 :: bd).length ≤ k → k < b →
          isPref (45 :: 45 :: bd) (body.drop k) = false)
      (occSeq body bd) ∧
    (splitParts body bd).length = (occSeq body bd).length - 1 ∧
    ((¬ ∃ i j, i < j ∧ isPref (45 :: 45 :: bd) (body.drop i) = true ∧
        isPref (45 :: 45 :: bd) (body.drop j) = true) → splitParts body bd = []) := by
  refine ⟨splitParts_eq_zip body bd, ?_, ?_, ?_, ?_, ?_⟩
  · intro o ho
    cases h0 : bufIndexOf body (45 :: 45 :: bd) 0 with
    | none =>
      rw [occSeq_none h0] at ho
      cases ho
    | some s =>
      rw [occSeq_start h0] at ho
      exact occLoopF_mem body bd body.length s (bufIndexOf_some_iff.mp h0).2.1 o ho
  · intro hd hhd k hk
    cases h0 : bufIndexOf body (45 :: 45 :: bd) 0 with
    | none =>
      rw [occSeq_none h0] at hhd
      cases hhd
    | some s =>
      rw [occSeq_start h0] at hhd
      obtain ⟨t, ht⟩ := occLoopF_cons body bd body.length s
      rw [ht] at hhd
      simp only [List.head?_cons, Option.mem_def, Option.some.injEq] at hhd
      subst hhd
      by_contra hlt
      have hmin := (bufIndexOf_some_iff.mp h0).2.2 k (by omega) (by omega)
      rw [hmin] at hk
      cases hk
  · cases h0 : bufIndexOf body (45 :: 45 :: bd) 0 with
    | none =>
      rw [occSeq_none h0]
      exact List.chain'_nil
    | some s =>
      rw [occSeq_start h0]
      exact occLoopF_chain body bd body.length s
  · rw [splitParts_eq_zip body bd, List.length_map, List.length_zip, List.length_tail]
    exact Nat.min_eq_right (Nat.sub_le _ 1)
  · intro hno
    cases h0 : bufIndexOf body (45 :: 45 :: bd) 0 with
    | none => exact splitParts_none h0
    | some s =>
      rw [splitParts_start h0]
      cases h1 : bufIndexOf body (45 :: 45 :: bd) (s + (45 :: 45 :: bd).length) with
      | none => exact splitLoopF_stop body.length h1
      | some n =>
        exfalso
        apply hno
        refine ⟨s, n, ?_, (bufIndexOf_some_iff.mp h0).2.1, (bufIndexOf_some_iff.mp h1).2.1⟩
        have hle := (bufIndexOf_some_iff.mp h1).1
        have hlen : 0 < (45 :: 45 :: bd).length := by simp
        omega

/-- C2 witness: the slice description evaluated on a concrete two-boundary
body. -/
theorem c2_part_splitter_witness :
    splitParts (asciiB "--Q\r\nABCD\r\n--Q--") (asciiB "Q") =
      ((occSeq (asciiB "--Q\r\nABCD\r\n--Q--") (asciiB "Q")).zip
        (occSeq (asciiB "--Q\r\nABCD\r\n--Q--") (asciiB "Q")).tail).map
        (fun pr => sliceB (asciiB "--Q\r\nABCD\r\n--Q--")
          (pr.1 + (45 :: 45 :: asciiB "Q").length + 2) (pr.2 - 2)) :=
  (c2_part_splitter (asciiB "--Q\r\nABCD\r\n--Q--") (asciiB "Q")).1

/-- C9: the slicing arithmetic of the splitter is total and in-bounds:
every emitted part is a contiguous sub-list of the body (no out-of-range
access), and whenever the computed start offset is at or beyond the
computed end offset, `sliceB` — the embedding of `Buffer.slice`, which
clamps rather than throws — yields the empty byte slice. -/
theorem c9_splitter_total (body bd : List Nat) :
    (∀ p ∈ splitParts body bd, ∃ s t, body = s ++ p ++ t) ∧
    (∀ a b, b ≤ a → sliceB body a b = []) := by
  constructor
  · intro p hp
    cases h0 : bufIndexOf body (45 :: 45 :: bd) 0 with
    | none =>
      rw [splitParts_none h0] at hp
      cases hp
    | some s =>
      rw [splitParts_start h0] at hp
      obtain ⟨a, b, rfl⟩ := splitLoopF_mem_slice body bd body.length s p hp
      exact ⟨(body.take b).take a, body.drop b, sliceB_split body a b⟩
  · intro a b hba
    unfold sliceB
    apply List.drop_eq_nil_of_le
    rw [List.length_take]
    exact le_trans (Nat.min_le_left _ _) hba

/-- C9 witness: the concrete part `ABCD` is a contiguous sub-list of its
body. -/
theorem c9_splitter_total_witness :
    ∃ s t, asciiB "--Q\r\nABCD\r\n--Q--" = s ++ asciiB "ABCD" ++ t :=
  (c9_splitter_total (asciiB "--Q\r\nABCD\r\n--Q--") (asciiB "Q")).1
    (asciiB "ABCD") (by decide)

/-- C6: for a POST request with `PROCESSOR_URL` set and a usable boundary,
if no part's header block (the bytes before its first `\r\n\r\n`) has a
`filename="..."` match, the handler answers HTTP 400
`No file found in request` and never reaches the downstream call (the
result is a `response`, not a `forward`); moreover a body in which the
boundary marker never occurs yields zero parts — and hence this same
error. -/
theorem c6_no_file_found :
    (∀ (purl : String) (req : Request) (ct bchars : List Char),
      purl ≠ "" → req.method = "POST" → req.contentType = some ct →
      getBoundary ct = some bchars → bchars ≠ [] →
      (∀ p ∈ splitParts req.body (utf8Encode bchars), ∀ he,
        bufIndexOf p crlf2crlf 0 = some he → fileMatch (sliceB p 0 he) = none) →
      handler (some purl) req = .response 400 "No file found in request") ∧
    (∀ (body bd : List Nat),
      (∀ i, isPref (45 :: 45 :: bd) (body.drop i) = false) → splitParts body bd = []) := by
  constructor
  · intro purl req ct bchars hp hm hct hgb hne hparts
    apply handler_no_file hp hm hct hgb hne
    apply findFile_none_of_all
    intro p hp'
    cases hsep : bufIndexOf p crlf2crlf 0 with
    | none => exact tryPart_none_of_no_sep hsep
    | some he => exact tryPart_none_of_no_match hsep (hparts p hp' he hsep)
  · intro body bd hno
    apply splitParts_none
    rw [bufIndexOf_none_iff]
    intro k _
    exact hno k

/-- C6 witness: a request whose single part declares no filename is
answered 400 `No file found in request`. -/
theorem c6_no_file_found_witness :
    handler (some "http://proc") reqC6 = .response 400 "No file found in request" := by
  apply c6_no_file_found.1 "http://proc" reqC6 "multipart/form-data; boundary=Q".data
    "Q".data (by decide) rfl rfl (by decide) (by decide)
  intro p hp he hhe
  rw [show splitParts reqC6.body (utf8Encode "Q".data) = [partC6] from by decide] at hp
  simp only [List.mem_singleton] at hp
  subst hp
  rw [show bufIndexOf partC6 crlf2crlf 0 = some 40 from by decide] at hhe
  injection hhe with h
  subst h
  decide

/-- C10: an empty payload is not "no file found": a part whose header
matches `filename="..."` and whose `\r\n\r\n` separator is its last
content yields a successful (non-null) extraction with a zero-length
payload, and a handler run whose first matching part is of this shape
proceeds to forward a zero-byte file downstream instead of answering the
400 `No file found in request` error. -/
theorem c10_empty_payload :
    (∀ (p : List Nat) (he : Nat) (fn : List Nat),
      bufIndexOf p crlf2crlf 0 = some he → fileMatch (sliceB p 0 he) = some fn →
      p.length = he + 4 → tryPart p = some (fn, [])) ∧
    (∀ (purl : String) (req : Request) (ct bchars : List Char)
        (pre suf : List (List Nat)) (p : List Nat) (he : Nat) (fn : List Nat),
      purl ≠ "" → req.method = "POST" → req.contentType = some ct →
      getBoundary ct = some bchars → bchars ≠ [] →
      splitParts req.body (utf8Encode bchars) = pre ++ p :: suf →
      (∀ q ∈ pre, tryPart q = none) →
      bufIndexOf p crlf2crlf 0 = some he → fileMatch (sliceB p 0 he) = some fn →
      p.length = he + 4 →
      handler (some purl) req = .forward fn []) := by
  have hdrop : ∀ (p : List Nat) (he : Nat), p.length = he + 4 → p.drop (he + 4) = [] :=
    fun p he hl => List.drop_eq_nil_of_le (by omega)
  constructor
  · intro p he fn h1 h2 h3
    rw [tryPart_some_of_match h1 h2, hdrop p he h3]
  · intro purl req ct bchars pre suf p he fn hp hm hct hgb hne hsplit hpre h1 h2 h3
    apply handler_forward hp hm hct hgb hne
    rw [hsplit, findFile_append_none hpre,
      findFile_cons_some suf (tryPart_some_of_match h1 h2), hdrop p he h3]

/-- C10 witness: a concrete request whose file part ends right at the
separator is forwarded with filename `a.pdf` and an empty payload. -/
theorem c10_empty_payload_witness :
    handler (some "http://proc") reqC10 = .forward (asciiB "a.pdf") [] :=
  c10_empty_payload.2 "http://proc" reqC10 "multipart/form-data; boundary=Q".data
    "Q".data [] [] partC10 58 (asciiB "a.pdf") (by decide) rfl rfl (by decide) (by decide)
    (by decide) (by simp) (by decide) (by decide) (by decide)

/-- C8: the default filename `file.pdf` of line 53 is dead code: whenever
the handler reaches the forwarding step, the filename handed to the
outbound request is the capture group of a `filename="..."` match of some
part's header block, because `fileBuffer` is assigned only inside the
filename-match branch. -/
theorem c8_filename_from_match (purl : String) (req : Request) (fn buf : List Nat)
    (h : handler (some purl) req = .forward fn buf) :
    ∃ ct bchars, req.contentType = some ct ∧ getBoundary ct = some bchars ∧
      ∃ p ∈ splitParts req.body (utf8Encode bchars), ∃ he,
        bufIndexOf p crlf2crlf 0 = some he ∧
        fileMatch (sliceB p 0 he) = some fn ∧ buf = p.drop (he + 4) := by
  by_cases hm : req.method = "POST"
  case neg =>
    rw [handler_not_post hm] at h
    cases h
  by_cases hp : purl = ""
  case pos =>
    rw [handler_bad_url hm (Or.inr (by rw [hp]))] at h
    cases h
  cases hct : req.contentType with
  | none =>
    rw [handler_ct_absent hp hm hct] at h
    cases h
  | some ct =>
    cases hgb : getBoundary ct with
    | none =>
      rw [handler_no_boundary hp hm hct hgb] at h
      cases h
    | some bchars =>
      by_cases hne : bchars = []
      case pos =>
        subst hne
        rw [handler_empty_boundary hp hm hct hgb] at h
        cases h
      cases hff : findFile (splitParts req.body (utf8Encode bchars)) with
      | none =>
        rw [handler_no_file hp hm hct hgb hne hff] at h
        cases h
      | some r =>
        obtain ⟨fn', buf'⟩ := r
        rw [handler_forward hp hm hct hgb hne hff] at h
        injection h with h1 h2
        subst h1
        subst h2
        obtain ⟨p, hpmem, hpt⟩ := findFile_some_mem hff
        obtain ⟨he, hsep, hfm, hbuf⟩ := tryPart_some_inv hpt
        exact ⟨ct, bchars, rfl, hgb, p, hpmem, he, hsep, hfm, hbuf⟩

/-- C8 witness: on a concrete forwarded request the filename `a.pdf` is
the capture group of the matching part. -/
theorem c8_filename_from_match_witness :
    ∃ ct bchars, reqC8.contentType = some ct ∧ getBoundary ct = some bchars ∧
      ∃ p ∈ splitParts reqC8.body (utf8Encode bchars), ∃ he,
        bufIndexOf p crlf2crlf 0 = some he ∧
        fileMatch (sliceB p 0 he) = some (asciiB "a.pdf") ∧
        asciiB "AB" = p.drop (he + 4) :=
  c8_filename_from_match "http://proc" reqC8 (asciiB "a.pdf") (asciiB "AB") (by decide)

/-! ### The round-trip body (claim C1) -/

theorem bodyC1_assoc (P : List Nat) : bodyC1 P = preC1 ++ (P ++ sufC1) := by
  unfold bodyC1
  rw [List.append_assoc]

theorem bodyC1_length (P : List Nat) : (bodyC1 P).length = 92 + P.length := by
  rw [bodyC1_assoc]
  simp only [List.length_append]
  rw [show preC1.length = 80 from by decide, show sufC1.length = 12 from by decide]
  omega

theorem bodyC1_getElem_pre (P : List Nat) {j : Nat} (hj : j < 80) :
    (bodyC1 P)[j]? = preC1[j]? := by
  rw [bodyC1_assoc]
  exact List.getElem?_append_left (by rw [show preC1.length = 80 from by decide]; omega)

theorem bodyC1_getElem_suf (P : List Nat) (i : Nat) :
    (bodyC1 P)[80 + P.length + i]? = sufC1[i]? := by
  rw [bodyC1_assoc]
  rw [List.getElem?_append_right (by rw [show preC1.length = 80 from by decide]; omega)]
  rw [show preC1.length = 80 from by decide]
  rw [show 80 + P.length + i - 80 = P.length + i from by omega]
  rw [List.getElem?_append_right (by omega)]
  rw [show P.length + i - P.length = i from by omega]

set_option maxRecDepth 10000 in
theorem bodyC1_no_occ_mid (P : List Nat) (hP : ∀ i, isPref bBufC1 (P.drop i) = false) :
    ∀ k, 1 ≤ k → k < 82 + P.length → isPref bBufC1 ((bodyC1 P).drop k) = false := by
  intro k hk1 hk2
  by_cases hc1 : k < 80
  · -- inside the concrete prefix: no double dash occurs there after index 0
    have hkill : ∀ k, k < 80 → 1 ≤ k →
        (preC1[k]? ≠ some 45 ∨ (k + 1 < 80 ∧ preC1[k + 1]? ≠ some 45)) := by decide
    rcases hkill k hc1 hk1 with h45 | ⟨hlt, h45⟩
    · exact no_occ_head_byte (show bBufC1[0]? = some 45 from by decide)
        (by rw [bodyC1_getElem_pre P hc1]; exact h45)
    · exact no_occ_two_bytes (show bBufC1[0]? = some 45 from by decide)
        (show bBufC1[1]? = some 45 from by decide)
        (Or.inr (by rw [bodyC1_getElem_pre P hlt]; exact h45))
  · push_neg at hc1
    by_cases hc2 : k + 8 ≤ 80 + P.length
    · -- entirely inside the payload: excluded by hypothesis
      have hbl : bBufC1.length = 8 := by decide
      rw [bodyC1_assoc, show k = preC1.length + (k - 80) from by
        rw [show preC1.length = 80 from by decide]; omega, List.drop_append]
      rw [List.drop_append_of_le_length (show k - 80 ≤ P.length by omega)]
      rw [isPref_append_eq bBufC1 (P.drop (k - 80)) sufC1
        (by rw [hbl, List.length_drop]; omega)]
      exact hP (k - 80)
    · push_neg at hc2
      by_cases hc3 : k ≤ 80 + P.length
      · -- the marker window would cover the CR at index 80 + |P|
        apply no_occ_of_crlf_byte (q := 80 + P.length) (Or.inr ?_) hc3
          (by rw [show bBufC1.length = 8 from by decide]; omega)
          (by decide)
        have h0 := bodyC1_getElem_suf P 0
        rw [Nat.add_zero] at h0
        rw [h0]
        decide
      · -- k = 81 + |P|: the byte there is the LF of the closing CRLF
        have hk81 : k = 81 + P.length := by omega
        apply no_occ_head_byte (show bBufC1[0]? = some 45 from by decide)
        rw [hk81, show 81 + P.length = 80 + P.length + 1 from by omega,
          bodyC1_getElem_suf P 1]
        decide

theorem bodyC1_first_occ (P : List Nat) :
    bufIndexOf (bodyC1 P) bBufC1 0 = some 0 := by
  rw [bufIndexOf_some_iff]
  refine ⟨Nat.le_refl 0, ?_, fun k hk1 hk2 => absurd hk2 (by omega)⟩
  rw [List.drop_zero, bodyC1_assoc]
  exact (isPref_iff _ _).mpr
    ⟨([13, 10] ++ hdrC1 ++ [13, 10, 13, 10]) ++ (P ++ sufC1),
      by simp [preC1, List.append_assoc]⟩

theorem bodyC1_closing_occ (P : List Nat) :
    isPref bBufC1 ((bodyC1 P).drop (82 + P.length)) = true := by
  rw [bodyC1_assoc]
  rw [show 82 + P.length = preC1.length + (P.length + 2) from by
    rw [show preC1.length = 80 from by decide]; omega, List.drop_append]
  rw [List.drop_append]
  rw [show sufC1.drop 2 = bBufC1 ++ [45, 45] from by decide]
  exact (isPref_iff _ _).mpr ⟨[45, 45], rfl⟩

theorem bodyC1_second_occ (P : List Nat) (hP : ∀ i, isPref bBufC1 (P.drop i) = false) :
    bufIndexOf (bodyC1 P) bBufC1 8 = some (82 + P.length) := by
  rw [bufIndexOf_some_iff]
  exact ⟨by omega, bodyC1_closing_occ P,
    fun k hk1 hk2 => bodyC1_no_occ_mid P hP k (by omega) hk2⟩

theorem bodyC1_no_third_occ (P : List Nat) :
    bufIndexOf (bodyC1 P) bBufC1 (90 + P.length) = none := by
  rw [bufIndexOf_none_iff]
  intro k hk
  cases hb : isPref bBufC1 ((bodyC1 P).drop k) with
  | false => rfl
  | true =>
    exfalso
    have hf := occ_fits (by decide) hb
    rw [bodyC1_length, show bBufC1.length = 8 from by decide] at hf
    omega

theorem bodyC1_parts (P : List Nat) (hP : ∀ i, isPref bBufC1 (P.drop i) = false) :
    splitParts (bodyC1 P) (asciiB "XYZ123") = [hdrC1 ++ crlf2crlf ++ P] := by
  have hbb : (45 :: 45 :: asciiB "XYZ123") = bBufC1 := by decide
  rw [splitParts_start (show bufIndexOf (bodyC1 P) (45 :: 45 :: asciiB "XYZ123") 0 = some 0
    from by rw [hbb]; exact bodyC1_first_occ P)]
  rw [bodyC1_length, show 92 + P.length = 91 + P.length + 1 from by omega]
  rw [splitLoopF_step (91 + P.length)
    (show bufIndexOf (bodyC1 P) (45 :: 45 :: asciiB "XYZ123")
        (0 + (45 :: 45 :: asciiB "XYZ123").length) = some (82 + P.length) from by
      rw [hbb, show 0 + bBufC1.length = 8 from by decide]
      exact bodyC1_second_occ P hP)]
  rw [splitLoopF_stop (91 + P.length)
    (show bufIndexOf (bodyC1 P) (45 :: 45 :: asciiB "XYZ123")
        (82 + P.length + (45 :: 45 :: asciiB "XYZ123").length) = none from by
      rw [hbb, show bBufC1.length = 8 from by decide,
        show 82 + P.length + 8 = 90 + P.length from by omega]
      exact bodyC1_no_third_occ P)]
  rw [show 0 + (45 :: 45 :: asciiB "XYZ123").length + 2 = 10 from by decide,
    show 82 + P.length - 2 = 80 + P.length from by omega]
  unfold sliceB
  rw [bodyC1_assoc]
  rw [show (80 : Nat) + P.length = preC1.length + P.length from by
    rw [show preC1.length = 80 from by decide]]
  rw [List.take_append]
  rw [List.take_left]
  rw [List.drop_append_of_le_length (show 10 ≤ preC1.length from by decide)]
  rw [show preC1.drop 10 = hdrC1 ++ crlf2crlf from by decide]

set_option maxRecDepth 10000 in
theorem part0_sep (P : List Nat) :
    bufIndexOf (hdrC1 ++ crlf2crlf ++ P) crlf2crlf 0 = some 66 := by
  rw [bufIndexOf_some_iff]
  refine ⟨by omega, ?_, ?_⟩
  · rw [List.append_assoc, show (66 : Nat) = hdrC1.length from by decide, List.drop_left]
    exact (isPref_iff _ _).mpr ⟨P, rfl⟩
  · intro k hk0 hk66
    apply no_occ_head_byte (show crlf2crlf[0]? = some 13 from by decide)
    rw [List.append_assoc, List.getElem?_append_left
      (show k < hdrC1.length from by rw [show hdrC1.length = 66 from by decide]; omega)]
    have hnoCR : ∀ k, k < 66 → hdrC1[k]? ≠ some 13 := by decide
    exact hnoCR k hk66

theorem part0_header (P : List Nat) :
    sliceB (hdrC1 ++ crlf2crlf ++ P) 0 66 = hdrC1 := by
  unfold sliceB
  rw [List.drop_zero, List.append_assoc,
    List.take_left' (show hdrC1.length = 66 from by decide)]

theorem part0_payload (P : List Nat) : (hdrC1 ++ crlf2crlf ++ P).drop (66 + 4) = P :=
  List.drop_left' (show (hdrC1 ++ crlf2crlf).length = 66 + 4 from by decide)

/-- C1: round-trip extraction: for every payload `P` in which the boundary
marker `--XYZ123` never occurs (this is what makes the one-part body
well-formed), the handler run on the multipart body whose single part
carries `Content-Disposition: form-data; name="file"; filename="report.pdf"`
and payload `P` reaches the forwarding step with filename `report.pdf` and
a payload byte-for-byte equal to `P` — no truncation, no padding. -/
theorem c1_roundtrip_extraction (P : List Nat)
    (hP : ∀ i, isPref bBufC1 (P.drop i) = false) :
    handler (some "http://proc") (reqC1 P) = .forward (asciiB "report.pdf") P := by
  apply handler_forward (by decide : ("http://proc" : String) ≠ "") rfl rfl
    (show getBoundary ("multipart/form-data; boundary=XYZ123".data)
      = some ("XYZ123".data) from by decide)
    (by decide)
  rw [show (reqC1 P).body = bodyC1 P from rfl,
    show utf8Encode ("XYZ123".data) = asciiB "XYZ123" from by decide,
    bodyC1_parts P hP]
  rw [findFile_cons_some []
    (tryPart_some_of_match (part0_sep P)
      (show fileMatch (sliceB (hdrC1 ++ crlf2crlf ++ P) 0 66) = some (asciiB "report.pdf")
        from by rw [part0_header P]; decide))]
  rw [part0_payload P]

/-- C1 witness: the round trip evaluated at the concrete payload
`PDFDATA`. -/
theorem c1_roundtrip_extraction_witness :
    handler (some "http://proc") (reqC1 (asciiB "PDFDATA")) =
      .forward (asciiB "report.pdf") (asciiB "PDFDATA") := by
  apply c1_roundtrip_extraction (asciiB "PDFDATA")
  intro i
  by_cases hi : i < 7
  · have hsmall : ∀ j, j < 7 → isPref bBufC1 ((asciiB "PDFDATA").drop j) = false := by decide
    exact hsmall i hi
  · rw [List.drop_eq_nil_of_le
      (by rw [show (asciiB "PDFDATA").length = 7 from by decide]; omega)]
    exact isPref_nil_of_ne (by decide)
